import Mathlib

/-!
Verification of the data-aggregation and view-state logic of a US-accidents
choropleth application (src/script.js).

The JavaScript source is shallowly embedded: JS numbers are modelled as
rationals (`ℚ`), a JS `Map` with string keys as an insertion-ordered
association list, and the DOM-facing handlers as pure state transformers.
Each definition mirrors the function of the same name in `src/script.js`.
-/

namespace Accidents

/-- JS logical-or on numbers restricted to the falsy value `0`
(models `x || 0` as it appears in `updateColorScale`). -/
def jsOrQ (a b : ℚ) : ℚ := if a = 0 then b else a

/-- JS logical-or on strings: the empty string is falsy
(models `s || ""` and `firstKey || "CA"`). -/
def jsOrS (a b : String) : String := if a = "" then b else a

/-- Model of `String.prototype.toUpperCase()`: uppercase every character
(ASCII case mapping, which is all that 2-letter state codes need). -/
def toUpperCase (s : String) : String := ⟨s.data.map Char.toUpper⟩

/-- A JS `Map` with string keys: an insertion-ordered association list. -/
abbrev JsMap (α : Type) := List (String × α)

/-- Model of `Map.prototype.get`. -/
def mapGet {α : Type} (m : JsMap α) (k : String) : Option α :=
  (m.find? (fun q => q.1 == k)).map (fun q => q.2)

/-- Model of `Map.prototype.has`. -/
def mapHas {α : Type} (m : JsMap α) (k : String) : Bool :=
  m.any (fun q => q.1 == k)

/-- Model of `Map.prototype.set`: replace in place when the key is present,
append otherwise. -/
def mapSet {α : Type} (m : JsMap α) (k : String) (v : α) : JsMap α :=
  if mapHas m k then m.map (fun q => if q.1 == k then (k, v) else q)
  else m ++ [(k, v)]

/-- One parsed row of `us_accidents_state_month.csv` (see `stateMonthParserFn`). -/
structure AccidentRecord where
  state : String
  year_month : String
  year : ℚ
  count_accidents : ℚ
  avg_severity : ℚ
deriving DecidableEq, Repr

/-- The per-state accumulator created inside `buildStateSummary`
(`{ totalCount: 0, weightedSeverity: 0 }`). -/
structure AccEntry where
  totalCount : ℚ
  weightedSeverity : ℚ
deriving DecidableEq, Repr

/-- A finished per-state summary entry (`weightedSeverity` deleted,
`avgSeverity` added). -/
structure SummaryEntry where
  totalCount : ℚ
  avgSeverity : ℚ
deriving DecidableEq, Repr

/-- The body of the `data.forEach` loop in `buildStateSummary`. -/
def buildStep (summary : JsMap AccEntry) (d : AccidentRecord) : JsMap AccEntry :=
  let code := toUpperCase (jsOrS d.state "")
  if code = "" then summary
  else
    let entry := (mapGet summary code).getD ⟨0, 0⟩
    mapSet summary code
      ⟨entry.totalCount + d.count_accidents,
       entry.weightedSeverity + d.avg_severity * d.count_accidents⟩

/-- The second pass of `buildStateSummary`: compute `avgSeverity` from the
accumulated sums, guarding against division by a zero total. -/
def finalizeEntry (e : AccEntry) : SummaryEntry :=
  ⟨e.totalCount, if e.totalCount > 0 then e.weightedSeverity / e.totalCount else 0⟩

/-- Model of `buildStateSummary`: fold the records into per-state sums, then
finalize each entry. -/
def buildStateSummary (data : List AccidentRecord) : JsMap SummaryEntry :=
  ((data.foldl buildStep ([] : JsMap AccEntry)).map (fun p => (p.1, finalizeEntry p.2)))

/-- Model of `getMetricValue`: look the uppercased code up in the summary;
absent codes give 0. -/
def getMetricValue (stateSummary : JsMap SummaryEntry) (currentMetric : String)
    (stateCode : String) : ℚ :=
  match mapGet stateSummary (toUpperCase (jsOrS stateCode "")) with
  | none => 0
  | some stats => if currentMetric = "count" then stats.totalCount else stats.avgSeverity

/-- Model of `d3.extent` on a list of (never-NaN) numbers: `none` stands for
the `undefined` bounds d3 returns on an empty array. -/
def extent (l : List ℚ) : Option ℚ × Option ℚ := (l.min?, l.max?)

/-- Model of `updateColorScale`: from the summary and the active metric,
compute the sequential color-scale domain (first component) and the
`legendRange` (second component).  A `none` extent bound fails the
`Number.isFinite` test and falls back to the 0 / 1 defaults. -/
def updateColorScale (stateSummary : JsMap SummaryEntry) (currentMetric : String) :
    (ℚ × ℚ) × (ℚ × ℚ) :=
  if currentMetric = "count" then
    let counts := stateSummary.map (fun p => p.2.totalCount)
    let minCount := (extent counts).1.getD 0
    let maxCount := (extent counts).2.getD 1
    let domainMax := if maxCount = minCount then minCount + 1 else maxCount
    ((minCount, domainMax), (minCount, maxCount))
  else
    let severities := stateSummary.map (fun p => jsOrQ p.2.avgSeverity 0)
    let minSev := (extent severities).1.getD 0
    let maxSev := (extent severities).2.getD 1
    let padding : ℚ := 5 / 100
    let domainMin := minSev - padding
    let domainMax := maxSev + padding
    let domainMax := if domainMax ≤ domainMin then domainMin + 1 / 10 else domainMax
    ((domainMin, domainMax), (minSev, maxSev))

/-- Model of `updateMetricDescription`: the text put into `#metric-description`. -/
def updateMetricDescription (metric : String) : String :=
  if metric = "count" then
    "Total number of reported accidents in each state between 2016 and 2023."
  else
    "Average severity of accidents in each state (1 = minor, 4 = most severe)."

/-- The mutable view state of the page: `selectedState`, `currentMetric`,
the cached color-scale domain and the `legendRange` global. -/
structure UIState where
  selectedState : String
  currentMetric : String
  colorDomain : ℚ × ℚ
  legendRange : ℚ × ℚ
  metricDescription : String
deriving DecidableEq, Repr

/-- Model of the `#metric-select` change handler installed by `attachControls`:
set `currentMetric`, refresh the description, then run `updateMapColors`
(which recomputes the color scale and the legend). -/
def metricChangeHandler (stateSummary : JsMap SummaryEntry) (st : UIState)
    (value : String) : UIState :=
  let r := updateColorScale stateSummary value
  { st with
    currentMetric := value
    metricDescription := updateMetricDescription value
    colorDomain := r.1
    legendRange := r.2 }

/-- The initial value of the `selectedState` global. -/
def initialSelectedState : String := "CA"

/-- Model of the default-selection fixup in the `Promise.all` then-handler:
keep `"CA"` when the summary has it, otherwise fall back to the summary's
first key (or `"CA"` again when there is none). -/
def startupSelectedState (stateSummary : JsMap SummaryEntry) : String :=
  if mapHas stateSummary initialSelectedState then initialSelectedState
  else
    let firstKey := match stateSummary.head? with
      | some p => p.1
      | none => ""
    jsOrS firstKey initialSelectedState

/-- The properties bag of one GeoJSON feature: each candidate key either is a
string (`some`) or is absent / not a string (`none`). -/
structure FeatureProps where
  STUSPS : Option String := none
  STUSPS10 : Option String := none
  state_code : Option String := none
  STATE : Option String := none
  CODE : Option String := none
  code : Option String := none
  postal : Option String := none
  postalCode : Option String := none
deriving DecidableEq, Repr

/-- Model of `extractStateCode`: the first candidate property that is a string
with non-empty trim, trimmed; `""` when no candidate qualifies. -/
def extractStateCode (props : FeatureProps) : String :=
  let candidates := [props.STUSPS, props.STUSPS10, props.state_code, props.STATE,
    props.CODE, props.code, props.postal, props.postalCode]
  ((candidates.filterMap id).find? (fun c => c.trim.length != 0)).getD "" |>.trim

/-- The selection-relevant state of the map: the `selectedState` global plus
which polygons currently carry the `selected` class (one flag per feature,
in feature order). -/
structure MapSelection where
  selectedState : String
  selected : List Bool
deriving DecidableEq, Repr

/-- Model of the polygon click handler in `initMap`: an empty extracted code
returns early; otherwise the clicked feature's code becomes `selectedState`,
every polygon's `selected` class is cleared and the clicked one is set. -/
def clickHandler (features : List FeatureProps) (st : MapSelection) (i : ℕ) :
    MapSelection :=
  match features.get? i with
  | none => st
  | some f =>
    let code := extractStateCode f
    if code = "" then st
    else ⟨code, (List.range features.length).map (fun j => j == i)⟩

/-- The five column names of a CSV row as handed to `stateMonthParserFn`. -/
inductive CsvField where
  | state
  | year_month
  | year
  | count_accidents
  | avg_severity
deriving DecidableEq, Repr

/-- A JS value as produced by the row parser: either a string kept as-is or
the result of a numeric coercion (`none` standing for NaN). -/
inductive JSValue where
  | str (s : String)
  | num (q : Option ℚ)
deriving DecidableEq, Repr

/-- Whether a parsed field holds a number (possibly NaN) rather than a string. -/
def JSValue.isNum : JSValue → Bool
  | .num _ => true
  | .str _ => false

/-- The numeric value of a digit list, most significant digit first. -/
def digitsVal (cs : List Char) : ℕ :=
  cs.foldl (fun a c => a * 10 + (c.toNat - 48)) 0

/-- Model of JS unary plus (`+s`) on decimal numerals: optional sign, then
`digits`, `digits.digits`, `digits.` or `.digits`; the empty (or all-space)
string coerces to 0; anything else is NaN (`none`). -/
def toNumber (s : String) : Option ℚ :=
  let t := s.trim
  if t = "" then some 0
  else
    let sgn : ℚ := if t.startsWith "-" then -1 else 1
    let body := if t.startsWith "-" || t.startsWith "+" then t.drop 1 else t
    match body.splitOn "." with
    | [w] =>
      if w.data ≠ [] ∧ w.data.all Char.isDigit then some (sgn * digitsVal w.data)
      else none
    | [w, f] =>
      if (w.data ≠ [] ∨ f.data ≠ []) ∧ w.data.all Char.isDigit ∧ f.data.all Char.isDigit then
        some (sgn * ((digitsVal w.data : ℚ) + (digitsVal f.data : ℚ) / 10 ^ f.data.length))
      else none
    | _ => none

/-- Model of `stateMonthParserFn`: keep `state` and `year_month` as strings,
numerically coerce `year`, `count_accidents` and `avg_severity`. -/
def stateMonthParserFn (d : CsvField → String) : CsvField → JSValue
  | .state => .str (d .state)
  | .year_month => .str (d .year_month)
  | .year => .num (toNumber (d .year))
  | .count_accidents => .num (toNumber (d .count_accidents))
  | .avg_severity => .num (toNumber (d .avg_severity))

/-- How many of the five fields of a parsed row hold numerically coerced
values. -/
def numericFieldCount (rec : CsvField → JSValue) : ℕ :=
  (([CsvField.state, CsvField.year_month, CsvField.year, CsvField.count_accidents,
    CsvField.avg_severity]).filter (fun f => (rec f).isNum)).length

/-- How many of the five fields of a parsed row were kept as strings. -/
def stringFieldCount (rec : CsvField → JSValue) : ℕ :=
  (([CsvField.state, CsvField.year_month, CsvField.year, CsvField.count_accidents,
    CsvField.avg_severity]).filter (fun f => !(rec f).isNum)).length

end Accidents

namespace Accidents

/-! ### Helper lemmas about the JS primitives -/

theorem jsOrS_empty (s : String) : jsOrS s "" = s := by
  unfold jsOrS; split
  next h => exact h.symm
  next => rfl

theorem jsOrQ_zero (q : ℚ) : jsOrQ q 0 = q := by
  unfold jsOrQ; split
  next h => exact h.symm
  next => rfl

theorem char_toNat_ofNat_valid (n : ℕ) (h : n.isValidChar) : (Char.ofNat n).toNat = n := by
  rw [Char.ofNat, dif_pos h]
  rfl

theorem char_toUpper_toNat (c : Char) :
    c.toUpper.toNat = if 97 ≤ c.toNat ∧ c.toNat ≤ 122 then c.toNat - 32 else c.toNat := by
  show (if c.toNat ≥ 97 ∧ c.toNat ≤ 122 then Char.ofNat (c.toNat - 32) else c).toNat = _
  split
  next h =>
    have hv : (c.toNat - 32).isValidChar := Or.inl (by omega)
    rw [char_toNat_ofNat_valid _ hv]
  next => rfl

theorem char_toUpper_idem (c : Char) : c.toUpper.toUpper = c.toUpper := by
  apply Char.eq_of_val_eq
  apply UInt32.eq_of_toBitVec_eq
  apply BitVec.eq_of_toNat_eq
  show c.toUpper.toUpper.toNat = c.toUpper.toNat
  rw [char_toUpper_toNat c.toUpper, char_toUpper_toNat c]
  by_cases h : 97 ≤ c.toNat ∧ c.toNat ≤ 122
  · simp only [if_pos h]
    rw [if_neg (by omega)]
  · simp only [if_neg h]

theorem toUpperCase_idem (s : String) : toUpperCase (toUpperCase s) = toUpperCase s := by
  unfold toUpperCase
  congr 1
  rw [List.map_map]
  exact List.map_congr_left (fun c _ => char_toUpper_idem c)

/-! ### Lemmas about the JS Map model -/

theorem mapGet_cons {α : Type} (q : String × α) (m : JsMap α) (k : String) :
    mapGet (q :: m) k = if q.1 == k then some q.2 else mapGet m k := by
  unfold mapGet
  rw [List.find?_cons]
  cases h : (q.1 == k) with
  | true => simp [h]
  | false => simp [h]

theorem mapHas_cons {α : Type} (q : String × α) (m : JsMap α) (k : String) :
    mapHas (q :: m) k = (q.1 == k || mapHas m k) := by
  simp [mapHas, List.any_cons]

theorem mapGet_replace {α : Type} (m : JsMap α) (k k' : String) (v : α) :
    mapGet (m.map (fun q => if q.1 == k then (k, v) else q)) k' =
      if k' = k ∧ mapHas m k then some v else mapGet m k' := by
  induction m with
  | nil => simp [mapGet, mapHas]
  | cons q m ih =>
    cases hqk : (q.1 == k) with
    | true =>
      have hk : q.1 = k := eq_of_beq hqk
      have hhead : (if q.1 == k then (k, v) else q) = (k, v) := by simp [hqk]
      have hhas : mapHas (q :: m) k = true := by simp [mapHas_cons, hqk]
      rw [List.map_cons, hhead, mapGet_cons, mapGet_cons]
      by_cases hk' : k' = k
      · subst hk'
        simp [hhas]
      · rw [ih]
        simp [hk, hk', Ne.symm hk']
    | false =>
      have hk : q.1 ≠ k := ne_of_beq_false hqk
      have hhead : (if q.1 == k then (k, v) else q) = q := by simp [hqk]
      have hhas : mapHas (q :: m) k = mapHas m k := by simp [mapHas_cons, hqk]
      rw [List.map_cons, hhead, mapGet_cons, mapGet_cons, hhas]
      cases hqk' : (q.1 == k') with
      | true =>
        have hq' : q.1 = k' := eq_of_beq hqk'
        have hk'k : ¬(k' = k) := fun h => hk (hq'.trans h)
        simp [hqk', hk'k]
      | false =>
        rw [ih]
        simp [hqk']

theorem mapGet_eq_none_of_not_has {α : Type} (m : JsMap α) (k : String)
    (h : mapHas m k = false) : mapGet m k = none := by
  unfold mapGet
  rw [List.find?_eq_none.mpr]
  · rfl
  · intro x hx
    simp only [mapHas, List.any_eq_false] at h
    exact fun hb => h x hx hb

theorem mapGet_set {α : Type} (m : JsMap α) (k k' : String) (v : α) :
    mapGet (mapSet m k v) k' = if k' = k then some v else mapGet m k' := by
  unfold mapSet
  cases h : mapHas m k with
  | true =>
    simp only [if_pos]
    rw [mapGet_replace]
    by_cases hk' : k' = k
    · rw [if_pos ⟨hk', h⟩, if_pos hk']
    · rw [if_neg (by rintro ⟨a, -⟩; exact hk' a), if_neg hk']
  | false =>
    simp only [Bool.false_eq_true, if_false]
    unfold mapGet
    rw [List.find?_append]
    by_cases hk' : k' = k
    · subst hk'
      have h0 : mapGet m k' = none := mapGet_eq_none_of_not_has m k' h
      unfold mapGet at h0
      have h1 : List.find? (fun q => q.1 == k') m = none := Option.map_eq_none'.mp h0
      rw [h1, if_pos rfl]
      simp
    · have h1 : List.find? (fun q => q.1 == k') [(k, v)] = none := by
        simp [beq_eq_false_iff_ne.mpr (Ne.symm hk')]
      rw [h1, if_neg hk', Option.or_none]

theorem mem_mapSet {α : Type} (m : JsMap α) (k : String) (v : α) (p : String × α)
    (hp : p ∈ mapSet m k v) : p.1 = k ∨ p ∈ m := by
  unfold mapSet at hp
  by_cases h : mapHas m k
  · rw [if_pos h] at hp
    rcases List.mem_map.mp hp with ⟨q, hq, hqe⟩
    by_cases hqk : (q.1 == k) = true
    · rw [if_pos hqk] at hqe
      left
      rw [← hqe]
    · rw [if_neg hqk] at hqe
      right
      rw [← hqe]
      exact hq
  · rw [if_neg h] at hp
    rcases List.mem_append.mp hp with h1 | h1
    · right; exact h1
    · left
      rw [List.mem_singleton.mp h1]

/-! ### The aggregation invariant of buildStateSummary -/

/-- The records of `data` that aggregate under the (uppercased) state code
`code`. -/
def stateRecords (data : List AccidentRecord) (code : String) : List AccidentRecord :=
  data.filter (fun d => toUpperCase (jsOrS d.state "") == code)

/-- Sum of `count_accidents` over a list of records. -/
def sumCounts (l : List AccidentRecord) : ℚ :=
  (l.map (fun d => d.count_accidents)).sum

/-- Sum of `avg_severity * count_accidents` over a list of records. -/
def sumWeighted (l : List AccidentRecord) : ℚ :=
  (l.map (fun d => d.avg_severity * d.count_accidents)).sum

theorem sumCounts_nil : sumCounts [] = 0 := rfl

theorem sumCounts_cons (d : AccidentRecord) (l : List AccidentRecord) :
    sumCounts (d :: l) = d.count_accidents + sumCounts l := by
  simp [sumCounts]

theorem sumWeighted_cons (d : AccidentRecord) (l : List AccidentRecord) :
    sumWeighted (d :: l) = d.avg_severity * d.count_accidents + sumWeighted l := by
  simp [sumWeighted]

theorem foldl_buildStep_get (data : List AccidentRecord) (m : JsMap AccEntry)
    (code : String) (hcode : code ≠ "") :
    mapGet (data.foldl buildStep m) code =
      if (mapGet m code).isSome ∨ stateRecords data code ≠ [] then
        some ⟨((mapGet m code).getD ⟨0, 0⟩).totalCount + sumCounts (stateRecords data code),
              ((mapGet m code).getD ⟨0, 0⟩).weightedSeverity + sumWeighted (stateRecords data code)⟩
      else none := by
  induction data generalizing m with
  | nil =>
    simp only [List.foldl_nil, stateRecords, List.filter_nil, sumCounts_nil,
      ne_eq, not_true_eq_false, or_false]
    cases h : mapGet m code with
    | none => simp [h]
    | some e => simp [h, sumWeighted]
  | cons d rest ih =>
    rw [List.foldl_cons]
    by_cases hcd : toUpperCase (jsOrS d.state "") = ""
    · have hstep : buildStep m d = m := by
        unfold buildStep
        rw [if_pos hcd]
      have hfilter : stateRecords (d :: rest) code = stateRecords rest code := by
        unfold stateRecords
        rw [List.filter_cons, if_neg (by simp [hcd, Ne.symm hcode])]
      rw [hstep, hfilter]
      exact ih m
    · by_cases hc : toUpperCase (jsOrS d.state "") = code
      · have hstep : buildStep m d =
            mapSet m code
              ⟨((mapGet m code).getD ⟨0, 0⟩).totalCount + d.count_accidents,
               ((mapGet m code).getD ⟨0, 0⟩).weightedSeverity
                 + d.avg_severity * d.count_accidents⟩ := by
          unfold buildStep
          rw [if_neg (hc ▸ hcode), hc]
        have hfilter : stateRecords (d :: rest) code = d :: stateRecords rest code := by
          unfold stateRecords
          rw [List.filter_cons, if_pos (by simp [hc])]
        rw [hstep, hfilter, ih _]
        have hget : mapGet (mapSet m code
            ⟨((mapGet m code).getD ⟨0, 0⟩).totalCount + d.count_accidents,
             ((mapGet m code).getD ⟨0, 0⟩).weightedSeverity
               + d.avg_severity * d.count_accidents⟩) code = some
            ⟨((mapGet m code).getD ⟨0, 0⟩).totalCount + d.count_accidents,
             ((mapGet m code).getD ⟨0, 0⟩).weightedSeverity
               + d.avg_severity * d.count_accidents⟩ := by
          rw [mapGet_set, if_pos rfl]
        rw [hget]
        simp only [Option.isSome_some, true_or, Option.getD_some, if_pos]
        rw [if_pos (by right; simp)]
        rw [sumCounts_cons, sumWeighted_cons, add_assoc, add_assoc]
      · have hstep : mapGet (buildStep m d) code = mapGet m code := by
          unfold buildStep
          rw [if_neg hcd]
          rw [mapGet_set, if_neg (fun h => hc h.symm)]
        have hfilter : stateRecords (d :: rest) code = stateRecords rest code := by
          unfold stateRecords
          rw [List.filter_cons, if_neg (by simp [hc])]
        rw [hfilter, ih _, hstep]

theorem mapGet_mapValues {α β : Type} (f : α → β) (m : JsMap α) (k : String) :
    mapGet (m.map (fun p => (p.1, f p.2))) k = (mapGet m k).map f := by
  induction m with
  | nil => rfl
  | cons q m ih =>
    rw [List.map_cons, mapGet_cons, mapGet_cons]
    cases h : (q.1 == k) with
    | true => simp
    | false => simp [ih]

theorem foldl_buildStep_mem (data : List AccidentRecord) (m : JsMap AccEntry)
    (p : String × AccEntry) (hp : p ∈ data.foldl buildStep m) :
    p ∈ m ∨ (p.1 ≠ "" ∧ ∃ d ∈ data, p.1 = toUpperCase (jsOrS d.state "")) := by
  induction data generalizing m with
  | nil => left; exact hp
  | cons d rest ih =>
    rw [List.foldl_cons] at hp
    rcases ih (buildStep m d) hp with h | h
    · simp only [buildStep] at h
      by_cases hcd : toUpperCase (jsOrS d.state "") = ""
      · rw [if_pos hcd] at h
        left; exact h
      · rw [if_neg hcd] at h
        rcases mem_mapSet _ _ _ _ h with h1 | h1
        · right
          refine ⟨fun he => hcd (h1.symm.trans he), d, List.mem_cons_self d rest, h1⟩
        · left; exact h1
    · right
      obtain ⟨h1, d', hd', he'⟩ := h
      exact ⟨h1, d', List.mem_cons_of_mem _ hd', he'⟩

theorem buildStateSummary_mem (data : List AccidentRecord)
    (p : String × SummaryEntry) (hp : p ∈ buildStateSummary data) :
    p.1 ≠ "" ∧ ∃ d ∈ data, p.1 = toUpperCase (jsOrS d.state "") := by
  unfold buildStateSummary at hp
  rcases List.mem_map.mp hp with ⟨q, hq, rfl⟩
  rcases foldl_buildStep_mem data [] q hq with h | h
  · cases h
  · exact h

theorem buildStateSummary_key_upper (data : List AccidentRecord)
    (p : String × SummaryEntry) (hp : p ∈ buildStateSummary data) :
    p.1 ≠ "" ∧ toUpperCase p.1 = p.1 := by
  obtain ⟨h1, d, _, he⟩ := buildStateSummary_mem data p hp
  exact ⟨h1, by rw [he, toUpperCase_idem]⟩

theorem foldl_buildStep_get_empty (data : List AccidentRecord) (m : JsMap AccEntry) :
    mapGet (data.foldl buildStep m) "" = mapGet m "" := by
  induction data generalizing m with
  | nil => rfl
  | cons d rest ih =>
    rw [List.foldl_cons, ih (buildStep m d)]
    simp only [buildStep]
    by_cases hcd : toUpperCase (jsOrS d.state "") = ""
    · rw [if_pos hcd]
    · rw [if_neg hcd, mapGet_set, if_neg (fun h => hcd h.symm)]

theorem buildStateSummary_get_empty (data : List AccidentRecord) :
    mapGet (buildStateSummary data) "" = none := by
  unfold buildStateSummary
  rw [mapGet_mapValues, foldl_buildStep_get_empty]
  rfl

theorem buildStateSummary_get (data : List AccidentRecord) (code : String)
    (hcode : code ≠ "") :
    mapGet (buildStateSummary data) code =
      if stateRecords data code ≠ [] then
        some (finalizeEntry
          ⟨sumCounts (stateRecords data code), sumWeighted (stateRecords data code)⟩)
      else none := by
  unfold buildStateSummary
  rw [mapGet_mapValues, foldl_buildStep_get data [] code hcode]
  by_cases h : stateRecords data code = []
  · rw [if_neg (by simp [h, mapGet]), if_neg (by simp [h])]
    rfl
  · rw [if_pos (by simp [h, mapGet]), if_pos h]
    simp [mapGet]

theorem sumCounts_nonneg (l : List AccidentRecord)
    (h : ∀ r ∈ l, 0 ≤ r.count_accidents) : 0 ≤ sumCounts l := by
  induction l with
  | nil => simp [sumCounts_nil]
  | cons d l ih =>
    rw [sumCounts_cons]
    exact add_nonneg (h d (List.mem_cons_self d l))
      (ih fun r hr => h r (List.mem_cons_of_mem _ hr))

theorem stateRecords_subset (data : List AccidentRecord) (code : String)
    (r : AccidentRecord) (hr : r ∈ stateRecords data code) : r ∈ data :=
  List.mem_of_mem_filter hr

/-- C1: every state entry the aggregation produces carries the sum of the
state's count_accidents as totalCount and the count-weighted mean severity
as avgSeverity, with 0 (not NaN) when the total is zero; and every record
with a non-empty code lands in an entry. -/
theorem buildStateSummary_totals (data : List AccidentRecord) (code : String)
    (e : SummaryEntry) (d : AccidentRecord)
    (hc : ∀ r ∈ data, 0 ≤ r.count_accidents)
    (he : mapGet (buildStateSummary data) code = some e)
    (hd : d ∈ data) :
    e.totalCount = sumCounts (stateRecords data code)
    ∧ (e.totalCount ≠ 0 →
        e.avgSeverity = sumWeighted (stateRecords data code) / e.totalCount)
    ∧ (e.totalCount = 0 → e.avgSeverity = 0)
    ∧ (toUpperCase (jsOrS d.state "") ≠ "" →
        (mapGet (buildStateSummary data) (toUpperCase (jsOrS d.state ""))).isSome) := by
  have hcode : code ≠ "" := by
    intro h
    rw [h, buildStateSummary_get_empty] at he
    cases he
  rw [buildStateSummary_get data code hcode] at he
  by_cases hrec : stateRecords data code = []
  · rw [if_neg (by simp [hrec])] at he
    cases he
  · rw [if_pos hrec] at he
    have he' : e = finalizeEntry
        ⟨sumCounts (stateRecords data code), sumWeighted (stateRecords data code)⟩ :=
      (Option.some.injEq _ _ ▸ he).symm
    have htc : e.totalCount = sumCounts (stateRecords data code) := by
      rw [he']
      rfl
    refine ⟨htc, ?_, ?_, ?_⟩
    · intro hne
      have hpos : 0 < sumCounts (stateRecords data code) := by
        rcases lt_or_eq_of_le (sumCounts_nonneg _
          (fun r hr => hc r (stateRecords_subset data code r hr))) with h | h
        · exact h
        · exact absurd (htc.trans h.symm) hne
      rw [he']
      simp [finalizeEntry, hpos]
    · intro hzero
      rw [he']
      simp only [finalizeEntry]
      rw [if_neg (by rw [htc] at hzero; rw [hzero]; exact lt_irrefl 0)]
    · intro hne
      have hmem : d ∈ stateRecords data (toUpperCase (jsOrS d.state "")) := by
        unfold stateRecords
        exact List.mem_filter.mpr ⟨hd, by simp⟩
      rw [buildStateSummary_get data _ hne,
        if_pos (by intro h; rw [h] at hmem; cases hmem)]
      rfl

/-- Two TX rows as in the spec scenario: 100 accidents at severity 2.0 and
50 accidents at severity 4.0. -/
def txRecords : List AccidentRecord :=
  [⟨"TX", "2021-01", 2021, 100, 2⟩, ⟨"TX", "2021-02", 2021, 50, 4⟩]

theorem upper_TX : toUpperCase "TX" = "TX" := by decide

theorem txRecords_summary : buildStateSummary txRecords = [("TX", ⟨150, 8/3⟩)] := by
  simp [buildStateSummary, txRecords, buildStep, mapGet, mapSet, mapHas, finalizeEntry,
    jsOrS_empty, upper_TX]
  norm_num

theorem buildStateSummary_totals_witness :
    (⟨150, 8/3⟩ : SummaryEntry).totalCount = sumCounts (stateRecords txRecords "TX")
    ∧ ((⟨150, 8/3⟩ : SummaryEntry).totalCount ≠ 0 →
        (⟨150, 8/3⟩ : SummaryEntry).avgSeverity
          = sumWeighted (stateRecords txRecords "TX") / (⟨150, 8/3⟩ : SummaryEntry).totalCount)
    ∧ ((⟨150, 8/3⟩ : SummaryEntry).totalCount = 0 →
        (⟨150, 8/3⟩ : SummaryEntry).avgSeverity = 0)
    ∧ (toUpperCase (jsOrS (⟨"TX", "2021-01", 2021, 100, 2⟩ : AccidentRecord).state "") ≠ "" →
        (mapGet (buildStateSummary txRecords)
          (toUpperCase (jsOrS (⟨"TX", "2021-01", 2021, 100, 2⟩ : AccidentRecord).state ""))).isSome) := by
  refine buildStateSummary_totals txRecords "TX" ⟨150, 8/3⟩ ⟨"TX", "2021-01", 2021, 100, 2⟩
    ?_ ?_ ?_
  · intro r hr
    rcases List.mem_cons.mp hr with rfl | hr
    · norm_num
    · rcases List.mem_cons.mp hr with rfl | hr
      · norm_num
      · cases hr
  · rw [txRecords_summary, mapGet_cons]
    simp
  · exact List.mem_cons_self _ _

theorem upper_tx : toUpperCase "tx" = "TX" := by decide

theorem upper_NY : toUpperCase "NY" = "NY" := by decide

/-- C2: the two-record TX scenario yields summary (150, 8/3), the severity
lookup on lowercase tx returns 8/3 = (100*2 + 50*4)/150, and a lookup on the
absent code NY returns 0. -/
theorem txEndToEnd :
    mapGet (buildStateSummary txRecords) "TX" = some ⟨150, 8/3⟩
    ∧ (8 : ℚ)/3 = (100 * 2 + 50 * 4) / 150
    ∧ getMetricValue (buildStateSummary txRecords) "severity" "tx" = 8/3
    ∧ getMetricValue (buildStateSummary txRecords) "severity" "NY" = 0 := by
  refine ⟨?_, by norm_num, ?_, ?_⟩
  · rw [txRecords_summary, mapGet_cons]
    simp
  · rw [txRecords_summary]
    simp [getMetricValue, mapGet, jsOrS_empty, upper_tx]
  · rw [txRecords_summary]
    simp [getMetricValue, mapGet, jsOrS_empty, upper_NY]

theorem buildStep_emptyState (m : JsMap AccEntry) (r : AccidentRecord)
    (hr : r.state = "") : buildStep m r = m := by
  unfold buildStep
  rw [hr]
  rw [if_pos (show toUpperCase (jsOrS "" "") = "" from by decide)]

theorem buildStep_upperState (m : JsMap AccEntry) (d : AccidentRecord) :
    buildStep m { d with state := toUpperCase d.state } = buildStep m d := by
  unfold buildStep
  simp [jsOrS_empty, toUpperCase_idem]

theorem foldl_buildStep_upperState (data : List AccidentRecord) (m : JsMap AccEntry) :
    (data.map (fun d => { d with state := toUpperCase d.state })).foldl buildStep m
      = data.foldl buildStep m := by
  induction data generalizing m with
  | nil => rfl
  | cons d rest ih =>
    rw [List.map_cons, List.foldl_cons, List.foldl_cons, buildStep_upperState]
    exact ih _

theorem upper_ca : toUpperCase "ca" = "CA" := by decide

theorem upper_CA : toUpperCase "CA" = "CA" := by decide

/-- C3: summary keys are non-empty and uppercase, an empty-state record
contributes to no entry, case-variant state codes aggregate identically, and
in particular the codes ca and CA land in the single entry CA. -/
theorem buildStateSummary_keys (data pre post : List AccidentRecord) (r : AccidentRecord) :
    (∀ p ∈ buildStateSummary data, p.1 ≠ "" ∧ toUpperCase p.1 = p.1)
    ∧ (r.state = "" →
        buildStateSummary (pre ++ r :: post) = buildStateSummary (pre ++ post))
    ∧ buildStateSummary (data.map (fun d => { d with state := toUpperCase d.state }))
        = buildStateSummary data
    ∧ buildStateSummary [⟨"ca", "m", 2020, 1, 2⟩, ⟨"CA", "m", 2020, 3, 4⟩]
        = [("CA", ⟨4, 7/2⟩)] := by
  refine ⟨fun p hp => buildStateSummary_key_upper data p hp, ?_, ?_, ?_⟩
  · intro hr
    unfold buildStateSummary
    rw [List.foldl_append, List.foldl_append, List.foldl_cons,
      buildStep_emptyState _ r hr]
  · unfold buildStateSummary
    rw [foldl_buildStep_upperState]
  · simp [buildStateSummary, buildStep, mapGet, mapSet, mapHas, finalizeEntry,
      jsOrS_empty, upper_ca, upper_CA]
    norm_num

theorem sumWeighted_nil : sumWeighted [] = 0 := rfl

theorem sumWeighted_bounds (l : List AccidentRecord)
    (hc : ∀ r ∈ l, 0 ≤ r.count_accidents)
    (hs : ∀ r ∈ l, 1 ≤ r.avg_severity ∧ r.avg_severity ≤ 4) :
    sumCounts l ≤ sumWeighted l ∧ sumWeighted l ≤ 4 * sumCounts l := by
  induction l with
  | nil => simp [sumCounts_nil, sumWeighted_nil]
  | cons d l ih =>
    obtain ⟨ih1, ih2⟩ := ih (fun r hr => hc r (List.mem_cons_of_mem _ hr))
      (fun r hr => hs r (List.mem_cons_of_mem _ hr))
    have hc0 := hc d (List.mem_cons_self d l)
    obtain ⟨hs1, hs4⟩ := hs d (List.mem_cons_self d l)
    rw [sumCounts_cons, sumWeighted_cons]
    constructor
    · nlinarith
    · nlinarith

/-- C10: with non-negative counts and severities inside the 1..4 scale, every
summary entry has a non-negative total and an average severity inside 1..4
when the total is positive, and 0 when the total is zero. -/
theorem buildStateSummary_range (data : List AccidentRecord) (code : String)
    (e : SummaryEntry)
    (hc : ∀ r ∈ data, 0 ≤ r.count_accidents)
    (hs : ∀ r ∈ data, 1 ≤ r.avg_severity ∧ r.avg_severity ≤ 4)
    (he : mapGet (buildStateSummary data) code = some e) :
    0 ≤ e.totalCount
    ∧ (0 < e.totalCount → 1 ≤ e.avgSeverity ∧ e.avgSeverity ≤ 4)
    ∧ (e.totalCount = 0 → e.avgSeverity = 0) := by
  have hcode : code ≠ "" := by
    intro h
    rw [h, buildStateSummary_get_empty] at he
    cases he
  rw [buildStateSummary_get data code hcode] at he
  by_cases hrec : stateRecords data code = []
  · rw [if_neg (by simp [hrec])] at he
    cases he
  · rw [if_pos hrec] at he
    have he' : e = finalizeEntry
        ⟨sumCounts (stateRecords data code), sumWeighted (stateRecords data code)⟩ :=
      (Option.some.injEq _ _ ▸ he).symm
    have hnn : 0 ≤ sumCounts (stateRecords data code) :=
      sumCounts_nonneg _ (fun r hr => hc r (stateRecords_subset data code r hr))
    obtain ⟨hb1, hb4⟩ := sumWeighted_bounds (stateRecords data code)
      (fun r hr => hc r (stateRecords_subset data code r hr))
      (fun r hr => hs r (stateRecords_subset data code r hr))
    refine ⟨by rw [he']; exact hnn, ?_, ?_⟩
    · intro hpos
      rw [he'] at hpos ⊢
      simp only [finalizeEntry] at hpos ⊢
      rw [if_pos hpos]
      constructor
      · exact (one_le_div hpos).mpr hb1
      · exact (div_le_iff₀ hpos).mpr (by linarith)
    · intro hzero
      rw [he'] at hzero ⊢
      simp only [finalizeEntry] at hzero ⊢
      rw [if_neg (by rw [hzero]; exact lt_irrefl 0)]

theorem buildStateSummary_range_witness :
    0 ≤ (⟨150, 8/3⟩ : SummaryEntry).totalCount
    ∧ (0 < (⟨150, 8/3⟩ : SummaryEntry).totalCount →
        1 ≤ (⟨150, 8/3⟩ : SummaryEntry).avgSeverity
        ∧ (⟨150, 8/3⟩ : SummaryEntry).avgSeverity ≤ 4)
    ∧ ((⟨150, 8/3⟩ : SummaryEntry).totalCount = 0 →
        (⟨150, 8/3⟩ : SummaryEntry).avgSeverity = 0) := by
  refine buildStateSummary_range txRecords "TX" ⟨150, 8/3⟩ ?_ ?_ ?_
  · intro r hr
    rcases List.mem_cons.mp hr with rfl | hr
    · norm_num
    rcases List.mem_cons.mp hr with rfl | hr
    · norm_num
    cases hr
  · intro r hr
    rcases List.mem_cons.mp hr with rfl | hr
    · constructor <;> norm_num
    rcases List.mem_cons.mp hr with rfl | hr
    · constructor <;> norm_num
    cases hr
  · rw [txRecords_summary, mapGet_cons]
    simp

/-! ### Extent lemmas -/

theorem foldl_min_le_init (xs : List ℚ) (x : ℚ) : xs.foldl min x ≤ x := by
  induction xs generalizing x with
  | nil => exact le_refl x
  | cons z xs ih => exact le_trans (ih (min x z)) (min_le_left x z)

theorem foldl_min_le_mem (xs : List ℚ) (x y : ℚ) (hy : y ∈ xs) : xs.foldl min x ≤ y := by
  induction xs generalizing x with
  | nil => cases hy
  | cons z xs ih =>
    rcases List.mem_cons.mp hy with rfl | hy
    · exact le_trans (foldl_min_le_init xs (min x y)) (min_le_right x y)
    · exact ih (min x z) hy

theorem foldl_min_mem (xs : List ℚ) (x : ℚ) : xs.foldl min x = x ∨ xs.foldl min x ∈ xs := by
  induction xs generalizing x with
  | nil => left; rfl
  | cons z xs ih =>
    rcases ih (min x z) with h | h
    · rcases min_choice x z with hm | hm
      · left
        rw [List.foldl_cons, h, hm]
      · right
        rw [List.foldl_cons, h, hm]
        exact List.mem_cons_self z xs
    · right
      exact List.mem_cons_of_mem z h

theorem foldl_max_le_init (xs : List ℚ) (x : ℚ) : x ≤ xs.foldl max x := by
  induction xs generalizing x with
  | nil => exact le_refl x
  | cons z xs ih => exact le_trans (le_max_left x z) (ih (max x z))

theorem foldl_max_le_mem (xs : List ℚ) (x y : ℚ) (hy : y ∈ xs) : y ≤ xs.foldl max x := by
  induction xs generalizing x with
  | nil => cases hy
  | cons z xs ih =>
    rcases List.mem_cons.mp hy with rfl | hy
    · exact le_trans (le_max_right x y) (foldl_max_le_init xs (max x y))
    · exact ih (max x z) hy

theorem foldl_max_mem (xs : List ℚ) (x : ℚ) : xs.foldl max x = x ∨ xs.foldl max x ∈ xs := by
  induction xs generalizing x with
  | nil => left; rfl
  | cons z xs ih =>
    rcases ih (max x z) with h | h
    · rcases max_choice x z with hm | hm
      · left
        rw [List.foldl_cons, h, hm]
      · right
        rw [List.foldl_cons, h, hm]
        exact List.mem_cons_self z xs
    · right
      exact List.mem_cons_of_mem z h

theorem foldl_min_const (xs : List ℚ) (c : ℚ) (h : ∀ y ∈ xs, y = c) :
    xs.foldl min c = c := by
  induction xs with
  | nil => rfl
  | cons z xs ih =>
    rw [List.foldl_cons, h z (List.mem_cons_self z xs), min_self]
    exact ih (fun y hy => h y (List.mem_cons_of_mem z hy))

theorem foldl_max_const (xs : List ℚ) (c : ℚ) (h : ∀ y ∈ xs, y = c) :
    xs.foldl max c = c := by
  induction xs with
  | nil => rfl
  | cons z xs ih =>
    rw [List.foldl_cons, h z (List.mem_cons_self z xs), max_self]
    exact ih (fun y hy => h y (List.mem_cons_of_mem z hy))

/-- A value that belongs to a list and bounds it below. -/
def isMinOf (q : ℚ) (l : List ℚ) : Prop := q ∈ l ∧ ∀ x ∈ l, q ≤ x

/-- A value that belongs to a list and bounds it above. -/
def isMaxOf (q : ℚ) (l : List ℚ) : Prop := q ∈ l ∧ ∀ x ∈ l, x ≤ q

theorem min?_cons_isMinOf (x : ℚ) (xs : List ℚ) : isMinOf (xs.foldl min x) (x :: xs) := by
  constructor
  · rcases foldl_min_mem xs x with h | h
    · rw [h]
      exact List.mem_cons_self x xs
    · exact List.mem_cons_of_mem x h
  · intro y hy
    rcases List.mem_cons.mp hy with rfl | hy
    · exact foldl_min_le_init xs y
    · exact foldl_min_le_mem xs x y hy

theorem max?_cons_isMaxOf (x : ℚ) (xs : List ℚ) : isMaxOf (xs.foldl max x) (x :: xs) := by
  constructor
  · rcases foldl_max_mem xs x with h | h
    · rw [h]
      exact List.mem_cons_self x xs
    · exact List.mem_cons_of_mem x h
  · intro y hy
    rcases List.mem_cons.mp hy with rfl | hy
    · exact foldl_max_le_init xs y
    · exact foldl_max_le_mem xs x y hy

theorem updateColorScale_count_nil : updateColorScale [] "count" = ((0, 1), (0, 1)) := by
  simp [updateColorScale, extent]

theorem updateColorScale_count_cons (p : String × SummaryEntry) (s : JsMap SummaryEntry) :
    updateColorScale (p :: s) "count" =
      (((s.map (fun q => q.2.totalCount)).foldl min p.2.totalCount,
        if (s.map (fun q => q.2.totalCount)).foldl max p.2.totalCount
            = (s.map (fun q => q.2.totalCount)).foldl min p.2.totalCount
        then (s.map (fun q => q.2.totalCount)).foldl min p.2.totalCount + 1
        else (s.map (fun q => q.2.totalCount)).foldl max p.2.totalCount),
       ((s.map (fun q => q.2.totalCount)).foldl min p.2.totalCount,
        (s.map (fun q => q.2.totalCount)).foldl max p.2.totalCount)) := by
  simp [updateColorScale, extent, List.min?, List.max?]

theorem updateColorScale_sev_nil :
    updateColorScale [] "severity" = ((-(5/100 : ℚ), 1 + 5/100), (0, 1)) := by
  simp [updateColorScale, extent]
  norm_num

theorem updateColorScale_sev_cons (p : String × SummaryEntry) (s : JsMap SummaryEntry) :
    updateColorScale (p :: s) "severity" =
      (((s.map (fun q => q.2.avgSeverity)).foldl min p.2.avgSeverity - 5/100,
        if (s.map (fun q => q.2.avgSeverity)).foldl max p.2.avgSeverity + 5/100
            ≤ (s.map (fun q => q.2.avgSeverity)).foldl min p.2.avgSeverity - 5/100
        then (s.map (fun q => q.2.avgSeverity)).foldl min p.2.avgSeverity - 5/100 + 1/10
        else (s.map (fun q => q.2.avgSeverity)).foldl max p.2.avgSeverity + 5/100),
       ((s.map (fun q => q.2.avgSeverity)).foldl min p.2.avgSeverity,
        (s.map (fun q => q.2.avgSeverity)).foldl max p.2.avgSeverity)) := by
  simp [updateColorScale, extent, List.min?, List.max?, jsOrQ_zero]

/-- C5: the count-metric color-scale domain runs from the least to the largest
summarized totalCount, bumped to min+1 when the extent is degenerate so the
upper bound is always strictly larger, and defaults to the 0 / 1 extent on an
empty summary. -/
theorem updateColorScale_count_spec (s : JsMap SummaryEntry) :
    (s = [] → updateColorScale s "count" = ((0, 1), (0, 1)))
    ∧ (s ≠ [] →
        isMinOf (updateColorScale s "count").1.1 (s.map (fun p => p.2.totalCount))
        ∧ isMaxOf (updateColorScale s "count").2.2 (s.map (fun p => p.2.totalCount))
        ∧ (updateColorScale s "count").1.2 =
            (if (updateColorScale s "count").2.2 = (updateColorScale s "count").1.1
             then (updateColorScale s "count").1.1 + 1
             else (updateColorScale s "count").2.2))
    ∧ (updateColorScale s "count").1.1 < (updateColorScale s "count").1.2 := by
  rcases s with _ | ⟨p, s'⟩
  · refine ⟨fun _ => updateColorScale_count_nil, fun h => absurd rfl h, ?_⟩
    rw [updateColorScale_count_nil]
    norm_num
  · refine ⟨fun h => absurd h (List.cons_ne_nil p s'), fun _ => ?_, ?_⟩
    · rw [updateColorScale_count_cons, List.map_cons]
      exact ⟨min?_cons_isMinOf _ _, max?_cons_isMaxOf _ _, rfl⟩
    · rw [updateColorScale_count_cons]
      show (s'.map (fun q => q.2.totalCount)).foldl min p.2.totalCount <
        (if (s'.map (fun q => q.2.totalCount)).foldl max p.2.totalCount
            = (s'.map (fun q => q.2.totalCount)).foldl min p.2.totalCount
         then (s'.map (fun q => q.2.totalCount)).foldl min p.2.totalCount + 1
         else (s'.map (fun q => q.2.totalCount)).foldl max p.2.totalCount)
      by_cases h : (s'.map (fun q => q.2.totalCount)).foldl max p.2.totalCount
          = (s'.map (fun q => q.2.totalCount)).foldl min p.2.totalCount
      · rw [if_pos h]
        exact lt_add_one _
      · rw [if_neg h]
        exact lt_of_le_of_ne
          (le_trans (foldl_min_le_init _ _) (foldl_max_le_init _ _))
          (fun hh => h hh.symm)

/-- C6: the severity-metric color-scale domain is the observed extent of the
averages padded by 0.05 on each side, with the upper bound forced to padded
min + 0.1 when the padded extent collapses; the legend keeps the unpadded
extent, and an empty summary defaults to the 0 / 1 extent. -/
theorem updateColorScale_severity_spec (s : JsMap SummaryEntry) :
    (s = [] → updateColorScale s "severity" = ((-(5/100 : ℚ), 1 + 5/100), (0, 1)))
    ∧ (s ≠ [] →
        isMinOf (updateColorScale s "severity").2.1 (s.map (fun p => p.2.avgSeverity))
        ∧ isMaxOf (updateColorScale s "severity").2.2 (s.map (fun p => p.2.avgSeverity))
        ∧ (updateColorScale s "severity").1.1
            = (updateColorScale s "severity").2.1 - 5/100
        ∧ (updateColorScale s "severity").1.2 =
            (if (updateColorScale s "severity").2.2 + 5/100
                ≤ (updateColorScale s "severity").2.1 - 5/100
             then (updateColorScale s "severity").2.1 - 5/100 + 1/10
             else (updateColorScale s "severity").2.2 + 5/100)) := by
  rcases s with _ | ⟨p, s'⟩
  · exact ⟨fun _ => updateColorScale_sev_nil, fun h => absurd rfl h⟩
  · refine ⟨fun h => absurd h (List.cons_ne_nil p s'), fun _ => ?_⟩
    rw [updateColorScale_sev_cons, List.map_cons]
    exact ⟨min?_cons_isMinOf _ _, max?_cons_isMaxOf _ _, rfl, rfl⟩

/-- C4 (amended): when every summarized average severity is exactly 2.5, the
severity color-scale domain is [2.45, 2.55] (min - 0.05, max + 0.05), while
the legend shows the unpadded [2.5, 2.5]. -/
theorem severity_domain_const (s : JsMap SummaryEntry)
    (hne : s ≠ []) (hall : ∀ p ∈ s, p.2.avgSeverity = 5/2) :
    updateColorScale s "severity" = ((49/20, 51/20), (5/2, 5/2)) := by
  rcases s with _ | ⟨p, s'⟩
  · exact absurd rfl hne
  · rw [updateColorScale_sev_cons]
    have hp : p.2.avgSeverity = 5/2 := hall p (List.mem_cons_self p s')
    have hconst : ∀ y ∈ s'.map (fun q => q.2.avgSeverity), y = (5/2 : ℚ) := by
      intro y hy
      rcases List.mem_map.mp hy with ⟨q, hq, rfl⟩
      exact hall q (List.mem_cons_of_mem p hq)
    rw [hp, foldl_min_const _ _ hconst, foldl_max_const _ _ hconst]
    norm_num [Prod.ext_iff]

theorem severity_domain_const_witness :
    updateColorScale [("XX", ⟨10, 5/2⟩)] "severity" = ((49/20, 51/20), (5/2, 5/2)) :=
  severity_domain_const [("XX", ⟨10, 5/2⟩)] (by simp) (by
    intro p hp
    rcases List.mem_cons.mp hp with rfl | hp
    · rfl
    · cases hp)

/-- On a summary whose only average severity is 2.5, the color domain is not
the [2.4, 2.6] the specification announces. -/
theorem severity_domain_claim_cex :
    (updateColorScale [("XX", ⟨10, 5/2⟩)] "severity").1 ≠ ((24 : ℚ)/10, 26/10) := by
  rw [updateColorScale_sev_cons]
  norm_num [Prod.ext_iff]

/-- C7 (amended): the row parser keeps exactly the two fields state and
year_month as strings and numerically coerces the other three fields
(year, count_accidents and avg_severity). -/
theorem stateMonthParserFn_fields (d : CsvField → String) :
    stateMonthParserFn d .state = .str (d .state)
    ∧ stateMonthParserFn d .year_month = .str (d .year_month)
    ∧ stateMonthParserFn d .year = .num (toNumber (d .year))
    ∧ stateMonthParserFn d .count_accidents = .num (toNumber (d .count_accidents))
    ∧ stateMonthParserFn d .avg_severity = .num (toNumber (d .avg_severity))
    ∧ numericFieldCount (stateMonthParserFn d) = 3
    ∧ stringFieldCount (stateMonthParserFn d) = 2 :=
  ⟨rfl, rfl, rfl, rfl, rfl, rfl, rfl⟩

/-- One concrete CSV row. -/
def sampleRow : CsvField → String
  | .state => "TX"
  | .year_month => "2021-01"
  | .year => "2021"
  | .count_accidents => "100"
  | .avg_severity => "2.5"

/-- On a concrete row the parser numerically coerces three fields, not the
two the specification announces. -/
theorem stateMonthParserFn_two_numeric_cex :
    numericFieldCount (stateMonthParserFn sampleRow) ≠ 2 := by decide

theorem count_indicator (n i : ℕ) (hi : i < n) :
    (((List.range n).map (fun j => j == i)).count true) = 1 := by
  rw [List.count, List.countP_map]
  have h1 : ((fun b => b == true) ∘ fun j => j == i) = fun j => j == i := by
    funext j
    simp
  rw [h1]
  have h2 : (List.range n).countP (fun j => j == i) = (List.range n).count i := rfl
  rw [h2]
  exact List.count_eq_one_of_mem (List.nodup_range n) (List.mem_range.mpr hi)

/-- C8: clicking a polygon with a resolvable state code makes it the sole
selection; clicking one without a resolvable code is a no-op. -/
theorem clickHandler_spec (features : List FeatureProps) (st : MapSelection)
    (i : ℕ) (f : FeatureProps) (hf : features.get? i = some f) :
    (extractStateCode f ≠ "" →
      (clickHandler features st i).selectedState = extractStateCode f
      ∧ (clickHandler features st i).selected.count true = 1)
    ∧ (extractStateCode f = "" → clickHandler features st i = st) := by
  have hi : i < features.length := by
    rcases List.get?_eq_some.mp hf with ⟨h, -⟩
    exact h
  constructor
  · intro hne
    simp only [clickHandler, hf]
    rw [if_neg hne]
    exact ⟨rfl, count_indicator features.length i hi⟩
  · intro he
    simp only [clickHandler, hf]
    rw [if_pos he]

/-- A feature resolving to the code TX. -/
def txFeature : FeatureProps := { STUSPS := some "TX" }

/-- A selection state with CA selected and one unselected polygon. -/
def caSel : MapSelection := ⟨"CA", [false]⟩

theorem clickHandler_spec_witness :
    (extractStateCode txFeature ≠ "" →
      (clickHandler [txFeature] caSel 0).selectedState = extractStateCode txFeature
      ∧ (clickHandler [txFeature] caSel 0).selected.count true = 1)
    ∧ (extractStateCode txFeature = "" → clickHandler [txFeature] caSel 0 = caSel) :=
  clickHandler_spec [txFeature] caSel 0 txFeature rfl

/-- C9: at startup the selection stays CA when CA is summarized and otherwise
falls back to the first summary key; changing the metric never changes the
selection. -/
theorem startup_and_metric_spec (data : List AccidentRecord) (k : String)
    (st : UIState) (m : String) (s : JsMap SummaryEntry) :
    (mapHas (buildStateSummary data) "CA" = true →
      startupSelectedState (buildStateSummary data) = "CA")
    ∧ (mapHas (buildStateSummary data) "CA" = false →
        (buildStateSummary data).head?.map Prod.fst = some k →
        startupSelectedState (buildStateSummary data) = k)
    ∧ (metricChangeHandler s st m).selectedState = st.selectedState := by
  refine ⟨?_, ?_, rfl⟩
  · intro h
    unfold startupSelectedState initialSelectedState
    rw [if_pos h]
  · intro h hk
    unfold startupSelectedState initialSelectedState
    rw [if_neg (by rw [show mapHas (buildStateSummary data) "CA" = false from h]; simp)]
    cases hh : (buildStateSummary data).head? with
    | none =>
      rw [hh] at hk
      cases hk
    | some p =>
      rw [hh] at hk
      have hpk : p.1 = k := Option.some.injEq _ _ ▸ hk
      have hmem : p ∈ buildStateSummary data :=
        List.mem_of_mem_head? (Option.mem_def.mpr hh)
      have hne := (buildStateSummary_mem data p hmem).1
      simp only [hh]
      rw [jsOrS, if_neg hne]
      exact hpk

end Accidents
